import Mathlib

/-!
Shallow embedding of the service-management logic of the proyecto-vyrtium
repository: the Mongoose `Service` schema (validation rules, defaults, the
capitalize-first-letter pre-save hook), the Express service controller
(create / getById / update / delete / listByCategory / stats), and the
second, self-contained Vercel entry point whose inline schema has no
pre-save hook.

Records are modelled as plain structures; the document store is a list of
records; JavaScript `x || y` fallbacks, `!== undefined` presence tests and
Mongoose validation are made explicit.  Prices are rationals (JS numbers),
client counts are integers, timestamps are integers (epoch instants).
-/

namespace Vyrtium

/-- Whitespace trim of both ends of a string, as the Mongoose `trim: true`
setter (JS `String.prototype.trim`) does on assignment to `name` and
`description`. -/
def jsTrim (s : String) : String :=
  ⟨((s.data.dropWhile Char.isWhitespace).reverse.dropWhile Char.isWhitespace).reverse⟩

/-- JavaScript `v || d` for an optional string `v`: the default is taken both
when the key is absent (`none`) and when the value is falsy (the empty
string). -/
def jsOrString : Option String → String → String
  | none, d => d
  | some v, d => if v = "" then d else v

/-- The `pre('save')` hook of `src/virtyum-backend/src/models/Service.js`:
`if (this.name) this.name = this.name.charAt(0).toUpperCase() + this.name.slice(1)`.
The first character is upper-cased, every other character is unchanged; the
empty string (falsy) is left alone. -/
def capFirstJs (s : String) : String :=
  match s.data with
  | [] => s
  | c :: cs => ⟨c.toUpper :: cs⟩

/-- A service document as persisted by the store: the seven business fields
plus the store-assigned identifier and the automatic timestamps. -/
structure Service where
  id : String
  name : String
  category : String
  price : ℚ
  duration : String
  status : String
  description : String
  clients : ℤ
  createdAt : ℤ
  updatedAt : ℤ
  deriving DecidableEq, Repr

/-- An incoming JSON request body.  The controller destructures exactly the
seven business keys; a body may additionally carry attacker-supplied keys
(`id`, `createdAt`, `updatedAt`, or anything else), which are modelled
explicitly so that their non-influence can be stated.  `none` means the key
is absent from the JSON object. -/
structure RequestBody where
  name : Option String
  category : Option String
  price : Option ℚ
  duration : Option String
  status : Option String
  description : Option String
  clients : Option ℤ
  id : Option String
  createdAt : Option ℤ
  updatedAt : Option ℤ
  otherKeys : List (String × String)
  deriving DecidableEq, Repr

/-- The request body with no keys at all (an empty JSON object). -/
def emptyBody : RequestBody :=
  ⟨none, none, none, none, none, none, none, none, none, none, []⟩

/-- The candidate document handed to Mongoose for validation: each schema
path is either present with a value or missing.  The `trim` setters of
`name` and `description` have already run. -/
structure RawDoc where
  name : Option String
  category : Option String
  price : Option ℚ
  duration : Option String
  status : Option String
  description : Option String
  clients : Option ℤ
  deriving DecidableEq, Repr

/-- Document construction performed by `createService` (controller lines
69-77): it reads exactly `name`, `category`, `price`, `duration`, `status`,
`description`, `clients` from the body, applying `status || 'Nuevo'` and
`clients || 0`; the schema `trim` setters run on `name` and `description`. -/
def buildRawDoc (b : RequestBody) : RawDoc :=
  { name := b.name.map jsTrim
    category := b.category
    price := b.price
    duration := b.duration
    status := some (jsOrString b.status "Nuevo")
    description := b.description.map jsTrim
    clients := some (match b.clients with
      | none => 0
      | some c => if c = 0 then 0 else c) }

/-- The fixed category enumeration of the schema. -/
def validCategories : List String :=
  ["Digital", "Social", "Contenido", "Diseño", "Desarrollo", "Análisis"]

/-- The fixed status enumeration of the schema. -/
def validStatuses : List String :=
  ["Activo", "Nuevo", "Pausado", "Inactivo"]

def msgNameRequired : String := "El nombre del servicio es obligatorio"
def msgNameMax : String := "El nombre no puede exceder 100 caracteres"
def msgCatRequired : String := "La categoría es obligatoria"
def msgCatEnum : String :=
  "La categoría debe ser: Digital, Social, Contenido, Diseño, Desarrollo o Análisis"
def msgPriceRequired : String := "El precio es obligatorio"
def msgPriceMin : String := "El precio no puede ser negativo"
def msgDurRequired : String := "La duración es obligatoria"
def msgDurMax : String := "La duración no puede exceder 50 caracteres"
def msgStatusRequired : String := "Path `status` is required."
def msgStatusEnum : String := "El estado debe ser: Activo, Nuevo, Pausado o Inactivo"
def msgDescRequired : String := "La descripción es obligatoria"
def msgDescMax : String := "La descripción no puede exceder 500 caracteres"
def msgClientsMin : String := "El número de clientes no puede ser negativo"

/-- Validation messages contributed by the `name` path: required (fails on a
missing key and on the empty string, as the Mongoose String required check
does) and maxlength 100. -/
def nameErrors (d : RawDoc) : List String :=
  match d.name with
  | none => [msgNameRequired]
  | some n => if n = "" then [msgNameRequired]
      else if n.length > 100 then [msgNameMax] else []

/-- Validation messages contributed by the `category` path: required, then
membership in the fixed enumeration. -/
def categoryErrors (d : RawDoc) : List String :=
  match d.category with
  | none => [msgCatRequired]
  | some c => if c = "" then [msgCatRequired]
      else if c ∈ validCategories then [] else [msgCatEnum]

/-- Validation messages contributed by the `price` path: required (a Number
is required-valid whenever present, including 0) and min 0. -/
def priceErrors (d : RawDoc) : List String :=
  match d.price with
  | none => [msgPriceRequired]
  | some p => if p < 0 then [msgPriceMin] else []

/-- Validation messages contributed by the `duration` path: required and
maxlength 50. -/
def durationErrors (d : RawDoc) : List String :=
  match d.duration with
  | none => [msgDurRequired]
  | some du => if du = "" then [msgDurRequired]
      else if du.length > 50 then [msgDurMax] else []

/-- Validation messages contributed by the `status` path: required (default
message, the schema gives none) and membership in the fixed enumeration. -/
def statusErrors (d : RawDoc) : List String :=
  match d.status with
  | none => [msgStatusRequired]
  | some st => if st = "" then [msgStatusRequired]
      else if st ∈ validStatuses then [] else [msgStatusEnum]

/-- Validation messages contributed by the `description` path: required and
maxlength 500. -/
def descriptionErrors (d : RawDoc) : List String :=
  match d.description with
  | none => [msgDescRequired]
  | some de => if de = "" then [msgDescRequired]
      else if de.length > 500 then [msgDescMax] else []

/-- Validation messages contributed by the `clients` path: not required,
min 0. -/
def clientsErrors (d : RawDoc) : List String :=
  match d.clients with
  | none => []
  | some c => if c < 0 then [msgClientsMin] else []

/-- Mongoose document validation: every schema path is checked
independently and the per-path messages are collected into one list
(`Object.values(error.errors).map(err => err.message)` in the controller),
in schema-path order.  An empty list means the document is valid. -/
def validationErrors (d : RawDoc) : List String :=
  nameErrors d ++ categoryErrors d ++ priceErrors d ++ durationErrors d ++
    statusErrors d ++ descriptionErrors d ++ clientsErrors d

/-- Validity of the `name` path (present, non-empty after trim setter,
at most 100 characters). -/
def nameOk (d : RawDoc) : Bool :=
  match d.name with
  | none => false
  | some n => n ≠ "" && n.length ≤ 100

/-- Validity of the `category` path (present and in the enumeration). -/
def categoryOk (d : RawDoc) : Bool :=
  match d.category with
  | none => false
  | some c => c ≠ "" && c ∈ validCategories

/-- Validity of the `price` path (present and non-negative). -/
def priceOk (d : RawDoc) : Bool :=
  match d.price with
  | none => false
  | some p => 0 ≤ p

/-- Validity of the `status` path (present and in the enumeration). -/
def statusOk (d : RawDoc) : Bool :=
  match d.status with
  | none => false
  | some st => st ≠ "" && st ∈ validStatuses

/-- Validity of the `clients` path (non-negative when present). -/
def clientsOk (d : RawDoc) : Bool :=
  match d.clients with
  | none => true
  | some c => 0 ≤ c

/-- Validity of the `duration` path (present, non-empty, at most 50
characters). -/
def durationOk (d : RawDoc) : Bool :=
  match d.duration with
  | none => false
  | some du => du ≠ "" && du.length ≤ 50

/-- Validity of the `description` path (present, non-empty after trim
setter, at most 500 characters). -/
def descriptionOk (d : RawDoc) : Bool :=
  match d.description with
  | none => false
  | some de => de ≠ "" && de.length ≤ 500

/-- The stored record produced from a validated raw document.  The `getD`
defaults are never reached on the success path: validation guarantees every
required field is present. -/
def finalizeDoc (d : RawDoc) (newId : String) (now : ℤ) : Service :=
  { id := newId
    name := d.name.getD ""
    category := d.category.getD ""
    price := d.price.getD 0
    duration := d.duration.getD ""
    status := d.status.getD "Nuevo"
    description := d.description.getD ""
    clients := d.clients.getD 0
    createdAt := now
    updatedAt := now }

/-- The backend `createService` (controller lines 68-102 together with the
`Service.js` model): build the document from the seven body keys, run
Mongoose validation, and on success run the capitalize-first-letter
pre-save hook and persist with fresh timestamps.  On validation failure the
per-field messages are returned (the controller's 400 response). -/
def createService (b : RequestBody) (newId : String) (now : ℤ) :
    Except (List String) Service :=
  let d := buildRawDoc b
  if validationErrors d = [] then
    let s := finalizeDoc d newId now
    .ok { s with name := capFirstJs s.name }
  else
    .error (validationErrors d)

/-- The inline Vercel app's `createService` (part_000 lines 526-559 with the
inline schema of lines 394-445): identical construction and validation, but
the inline schema registers no pre-save hook, so the name is persisted
exactly as trimmed. -/
def createServiceVercel (b : RequestBody) (newId : String) (now : ℤ) :
    Except (List String) Service :=
  let d := buildRawDoc b
  if validationErrors d = [] then
    .ok (finalizeDoc d newId now)
  else
    .error (validationErrors d)

/-- The raw-document view of a stored record, as re-validated by Mongoose on
every save: all schema paths are present. -/
def toRawDoc (s : Service) : RawDoc :=
  { name := some s.name
    category := some s.category
    price := some s.price
    duration := some s.duration
    status := some s.status
    description := some s.description
    clients := some s.clients }

/-- The field overlay of `updateService` (controller lines 164-170): the
five string fields fall back with `||` (so an absent key AND a falsy value
both retain the stored value), while `price` and `clients` are tested with
`!== undefined` (so any present value, 0 included, is applied).  The
assignments to `name` and `description` pass through the schema `trim`
setters. -/
def applyUpdateFields (s : Service) (b : RequestBody) : Service :=
  { s with
    name := jsTrim (jsOrString b.name s.name)
    category := jsOrString b.category s.category
    price := match b.price with
      | some p => p
      | none => s.price
    duration := jsOrString b.duration s.duration
    status := jsOrString b.status s.status
    description := jsTrim (jsOrString b.description s.description)
    clients := match b.clients with
      | some c => c
      | none => s.clients }

/-- The backend `updateService` applied to a record found in the store
(controller lines 160-204 with the `Service.js` model): overlay the body
onto the record, re-validate the whole document, and on success run the
capitalize pre-save hook and persist with a fresh `updatedAt`. -/
def updateService (s : Service) (b : RequestBody) (now : ℤ) :
    Except (List String) Service :=
  let d := applyUpdateFields s b
  if validationErrors (toRawDoc d) = [] then
    .ok { d with name := capFirstJs d.name, updatedAt := now }
  else
    .error (validationErrors (toRawDoc d))

/-- A record is storable when it satisfies every schema invariant a record
actually persisted through the backend pipeline has: it validates, its
`name` and `description` are trim-fixed (the setters ran when they were
assigned), and its `name` is a fixed point of the capitalize hook. -/
def Storable (s : Service) : Prop :=
  validationErrors (toRawDoc s) = [] ∧ jsTrim s.name = s.name ∧
    jsTrim s.description = s.description ∧ capFirstJs s.name = s.name

instance (s : Service) : Decidable (Storable s) := by
  unfold Storable; infer_instance

/-- A hexadecimal digit, as accepted by a MongoDB ObjectId string. -/
def isHexDigitChar (c : Char) : Bool :=
  c.isDigit || ('a' ≤ c && c ≤ 'f') || ('A' ≤ c && c ≤ 'F')

/-- Well-formedness of a route parameter as a store identifier: Mongoose
casts a string to an ObjectId when it is 24 hexadecimal characters (or a
12-character raw-byte string); anything else throws a `CastError` before
any query is issued. -/
def isWellFormedId (s : String) : Bool :=
  (s.length = 24 && s.data.all isHexDigitChar) || s.length = 12

/-- Outcome of `getServiceById`: the record (HTTP 200), a not-found echo of
the id (HTTP 404), or an invalid-identifier echo of the id (HTTP 400, from
the `CastError` branch). -/
inductive GetByIdResult where
  | found (s : Service)
  | notFound (id : String)
  | invalidId (id : String)
  deriving DecidableEq, Repr

/-- The HTTP status code of each `getServiceById` outcome (controller lines
115-142). -/
def GetByIdResult.statusCode : GetByIdResult → Nat
  | .found _ => 200
  | .notFound _ => 404
  | .invalidId _ => 400

/-- The backend `getServiceById` over a store modelled as a list of
records: a malformed id throws `CastError` inside `findById`, caught as the
400 branch; a well-formed id is looked up, yielding the record or the 404
branch with the id echoed back. -/
def getServiceById (db : List Service) (id : String) : GetByIdResult :=
  if isWellFormedId id then
    match db.find? (fun r => r.id = id) with
    | some r => .found r
    | none => .notFound id
  else
    .invalidId id

/-- Descending insertion by `createdAt`: the recursive step of the model of
the store's `sort({ createdAt: -1 })`. -/
def insertByCreatedDesc (r : Service) : List Service → List Service
  | [] => [r]
  | x :: xs =>
    if x.createdAt ≤ r.createdAt then r :: x :: xs
    else x :: insertByCreatedDesc r xs

/-- The store's `sort({ createdAt: -1 })`: the records ordered by creation
time, most recent first. -/
def sortByCreatedDesc (l : List Service) : List Service :=
  l.foldr insertByCreatedDesc []

/-- The backend `getAllServices` (controller lines 30-41):
`Service.find().sort({ createdAt: -1 })`. -/
def getAllServices (db : List Service) : List Service :=
  sortByCreatedDesc db

/-- Outcome of `getServicesByCategory`: the category echo with the match
count and records (HTTP 200), or the invalid-category response echoing the
valid set and the received value (HTTP 400). -/
inductive CategoryResult where
  | ok (category : String) (count : Nat) (services : List Service)
  | invalidCategory (message : String) (validSet : List String) (received : String)
  deriving DecidableEq, Repr

/-- The HTTP status code of each `getServicesByCategory` outcome. -/
def CategoryResult.statusCode : CategoryResult → Nat
  | .ok _ _ _ => 200
  | .invalidCategory _ _ _ => 400

/-- The backend `getServicesByCategory` (controller lines 263-291): the
category is checked against the fixed enumeration before any store query;
on success the matching records are fetched sorted by creation time,
most recent first, and returned with their count. -/
def getServicesByCategory (db : List Service) (category : String) :
    CategoryResult :=
  if category ∈ validCategories then
    let services := sortByCreatedDesc (db.filter (fun r => r.category = category))
    .ok category services.length services
  else
    .invalidCategory "Categoría inválida" validCategories category

/-- JavaScript `Math.round`: half-way values round toward positive
infinity, so `Math.round(x) = ⌊x + 1/2⌋`. -/
def jsRound (q : ℚ) : ℤ := ⌊q + 1/2⌋

/-- A status count: `Service.countDocuments({ status })`. -/
def countStatus (db : List Service) (st : String) : Nat :=
  (db.filter (fun r => r.status = st)).length

/-- The `$group` / `$sum` aggregation over `clients`: on an empty collection
the pipeline yields no row (`none`); otherwise the sum. -/
def aggTotalClients (db : List Service) : Option ℤ :=
  match db with
  | [] => none
  | _ => some (db.map (fun r => r.clients)).sum

/-- The `$group` aggregation with `$avg` / `$min` / `$max` over `price`: no
row on an empty collection, otherwise the triple (average, minimum,
maximum). -/
def aggPricing (db : List Service) : Option (ℚ × ℚ × ℚ) :=
  match db.map (fun r => r.price) with
  | [] => none
  | p :: ps =>
    some ((p :: ps).sum / ((p :: ps).length : ℚ), ps.foldl min p, ps.foldl max p)

/-- The `overview` section of the stats snapshot. -/
structure StatsOverview where
  totalServices : Nat
  activeServices : Nat
  newServices : Nat
  pausedServices : Nat
  inactiveServices : Nat
  deriving DecidableEq, Repr

/-- The `pricing` section of the stats snapshot. -/
structure StatsPricing where
  averagePrice : ℤ
  minPrice : ℚ
  maxPrice : ℚ
  deriving DecidableEq, Repr

/-- The stats snapshot assembled by `getServiceStats`. -/
structure Stats where
  overview : StatsOverview
  totalClients : ℤ
  totalCategories : Nat
  availableCategories : List String
  pricing : StatsPricing
  lastUpdated : ℤ
  deriving DecidableEq, Repr

/-- The backend `getServiceStats` (controller lines 310-380): five counts,
the clients sum, the distinct categories, and the price aggregate, each a
separate store query, merged into one snapshot.  Every `x || 0` fallback of
the source (`totalClientsResult[0]?.total || 0`,
`averagePriceResult[0]?.averagePrice || 0`, ...) is modelled explicitly:
the default is taken both when the aggregate produced no row and when the
value itself is 0 (falsy). -/
def getServiceStats (db : List Service) (now : ℤ) : Stats :=
  { overview :=
      { totalServices := db.length
        activeServices := countStatus db "Activo"
        newServices := countStatus db "Nuevo"
        pausedServices := countStatus db "Pausado"
        inactiveServices := countStatus db "Inactivo" }
    totalClients := match aggTotalClients db with
      | none => 0
      | some t => if t = 0 then 0 else t
    totalCategories := (db.map (fun r => r.category)).dedup.length
    availableCategories := (db.map (fun r => r.category)).dedup
    pricing := match aggPricing db with
      | none => { averagePrice := jsRound 0, minPrice := 0, maxPrice := 0 }
      | some (avg, mn, mx) =>
        { averagePrice := jsRound (if avg = 0 then 0 else avg)
          minPrice := if mn = 0 then 0 else mn
          maxPrice := if mx = 0 then 0 else mx }
    lastUpdated := now }

lemma nameErrors_eq_nil (d : RawDoc) : nameErrors d = [] ↔ nameOk d = true := by
  cases hn : d.name with
  | none => simp [nameErrors, nameOk, hn]
  | some n =>
    simp only [nameErrors, nameOk, hn]
    split_ifs with h1 h2 <;> simp_all

lemma categoryErrors_eq_nil (d : RawDoc) :
    categoryErrors d = [] ↔ categoryOk d = true := by
  cases hc : d.category with
  | none => simp [categoryErrors, categoryOk, hc]
  | some c =>
    simp only [categoryErrors, categoryOk, hc]
    split_ifs with h1 h2 <;> simp_all

lemma priceErrors_eq_nil (d : RawDoc) : priceErrors d = [] ↔ priceOk d = true := by
  cases hp : d.price with
  | none => simp [priceErrors, priceOk, hp]
  | some p =>
    simp only [priceErrors, priceOk, hp]
    split_ifs with h1 <;> simp_all [not_lt, le_of_lt]

lemma durationErrors_eq_nil (d : RawDoc) :
    durationErrors d = [] ↔ durationOk d = true := by
  cases hd : d.duration with
  | none => simp [durationErrors, durationOk, hd]
  | some du =>
    simp only [durationErrors, durationOk, hd]
    split_ifs with h1 h2 <;> simp_all

lemma statusErrors_eq_nil (d : RawDoc) : statusErrors d = [] ↔ statusOk d = true := by
  cases hs : d.status with
  | none => simp [statusErrors, statusOk, hs]
  | some st =>
    simp only [statusErrors, statusOk, hs]
    split_ifs with h1 h2 <;> simp_all

lemma descriptionErrors_eq_nil (d : RawDoc) :
    descriptionErrors d = [] ↔ descriptionOk d = true := by
  cases hd : d.description with
  | none => simp [descriptionErrors, descriptionOk, hd]
  | some de =>
    simp only [descriptionErrors, descriptionOk, hd]
    split_ifs with h1 h2 <;> simp_all

lemma clientsErrors_eq_nil (d : RawDoc) :
    clientsErrors d = [] ↔ clientsOk d = true := by
  cases hc : d.clients with
  | none => simp [clientsErrors, clientsOk, hc]
  | some c =>
    simp only [clientsErrors, clientsOk, hc]
    split_ifs with h1 <;> simp_all [not_lt, le_of_lt]

lemma validationErrors_eq_nil (d : RawDoc) :
    validationErrors d = [] ↔
      (nameOk d ∧ categoryOk d ∧ priceOk d ∧ durationOk d ∧ statusOk d ∧
        descriptionOk d ∧ clientsOk d) := by
  simp [validationErrors, List.append_eq_nil, nameErrors_eq_nil,
    categoryErrors_eq_nil, priceErrors_eq_nil, durationErrors_eq_nil,
    statusErrors_eq_nil, descriptionErrors_eq_nil, clientsErrors_eq_nil]

lemma mem_nameErrors {m : String} {d : RawDoc} (h : m ∈ nameErrors d) :
    m = msgNameRequired ∨ m = msgNameMax := by
  cases hn : d.name with
  | none => simp_all [nameErrors, hn]
  | some n =>
    simp only [nameErrors, hn] at h
    split_ifs at h <;> simp_all

lemma mem_categoryErrors {m : String} {d : RawDoc} (h : m ∈ categoryErrors d) :
    m = msgCatRequired ∨ m = msgCatEnum := by
  cases hc : d.category with
  | none => simp_all [categoryErrors, hc]
  | some c =>
    simp only [categoryErrors, hc] at h
    split_ifs at h <;> simp_all

lemma mem_priceErrors {m : String} {d : RawDoc} (h : m ∈ priceErrors d) :
    m = msgPriceRequired ∨ m = msgPriceMin := by
  cases hp : d.price with
  | none => simp_all [priceErrors, hp]
  | some p =>
    simp only [priceErrors, hp] at h
    split_ifs at h <;> simp_all

lemma mem_durationErrors {m : String} {d : RawDoc} (h : m ∈ durationErrors d) :
    m = msgDurRequired ∨ m = msgDurMax := by
  cases hd : d.duration with
  | none => simp_all [durationErrors, hd]
  | some du =>
    simp only [durationErrors, hd] at h
    split_ifs at h <;> simp_all

lemma mem_statusErrors {m : String} {d : RawDoc} (h : m ∈ statusErrors d) :
    m = msgStatusRequired ∨ m = msgStatusEnum := by
  cases hs : d.status with
  | none => simp_all [statusErrors, hs]
  | some st =>
    simp only [statusErrors, hs] at h
    split_ifs at h <;> simp_all

lemma mem_descriptionErrors {m : String} {d : RawDoc} (h : m ∈ descriptionErrors d) :
    m = msgDescRequired ∨ m = msgDescMax := by
  cases hd : d.description with
  | none => simp_all [descriptionErrors, hd]
  | some de =>
    simp only [descriptionErrors, hd] at h
    split_ifs at h <;> simp_all

lemma mem_clientsErrors {m : String} {d : RawDoc} (h : m ∈ clientsErrors d) :
    m = msgClientsMin := by
  cases hc : d.clients with
  | none => simp_all [clientsErrors, hc]
  | some c =>
    simp only [clientsErrors, hc] at h
    split_ifs at h <;> simp_all

lemma nameErrors_cases (d : RawDoc) :
    nameErrors d = [] ∨ nameErrors d = [msgNameRequired] ∨
      nameErrors d = [msgNameMax] := by
  cases hx : d.name with
  | none => simp [nameErrors, hx]
  | some n =>
    simp only [nameErrors, hx]
    split_ifs <;> simp

lemma categoryErrors_cases (d : RawDoc) :
    categoryErrors d = [] ∨ categoryErrors d = [msgCatRequired] ∨
      categoryErrors d = [msgCatEnum] := by
  cases hx : d.category with
  | none => simp [categoryErrors, hx]
  | some c =>
    simp only [categoryErrors, hx]
    split_ifs <;> simp

lemma priceErrors_cases (d : RawDoc) :
    priceErrors d = [] ∨ priceErrors d = [msgPriceRequired] ∨
      priceErrors d = [msgPriceMin] := by
  cases hx : d.price with
  | none => simp [priceErrors, hx]
  | some p =>
    simp only [priceErrors, hx]
    split_ifs <;> simp

lemma durationErrors_cases (d : RawDoc) :
    durationErrors d = [] ∨ durationErrors d = [msgDurRequired] ∨
      durationErrors d = [msgDurMax] := by
  cases hx : d.duration with
  | none => simp [durationErrors, hx]
  | some du =>
    simp only [durationErrors, hx]
    split_ifs <;> simp

lemma descriptionErrors_cases (d : RawDoc) :
    descriptionErrors d = [] ∨ descriptionErrors d = [msgDescRequired] ∨
      descriptionErrors d = [msgDescMax] := by
  cases hx : d.description with
  | none => simp [descriptionErrors, hx]
  | some de =>
    simp only [descriptionErrors, hx]
    split_ifs <;> simp

lemma nameMsg_mem_validationErrors (d : RawDoc) :
    (msgNameRequired ∈ validationErrors d ∨ msgNameMax ∈ validationErrors d) ↔
      nameOk d = false := by
  constructor
  · intro h
    by_contra hok
    rw [Bool.not_eq_false] at hok
    have hnil : nameErrors d = [] := (nameErrors_eq_nil d).mpr hok
    rcases h with h | h <;>
    · simp only [validationErrors, List.mem_append, hnil, List.not_mem_nil,
        false_or, or_false, or_assoc] at h
      rcases h with h | h | h | h | h | h <;>
        first
          | exact absurd (mem_categoryErrors h) (by decide)
          | exact absurd (mem_priceErrors h) (by decide)
          | exact absurd (mem_durationErrors h) (by decide)
          | exact absurd (mem_statusErrors h) (by decide)
          | exact absurd (mem_descriptionErrors h) (by decide)
          | exact absurd (mem_clientsErrors h) (by decide)
  · intro hfalse
    have hne : nameErrors d ≠ [] := by
      rw [ne_eq, nameErrors_eq_nil, hfalse]
      simp
    rcases nameErrors_cases d with h | h | h
    · exact absurd h hne
    · exact Or.inl (by simp [validationErrors, List.mem_append, h])
    · exact Or.inr (by simp [validationErrors, List.mem_append, h])

lemma categoryMsg_mem_validationErrors (d : RawDoc) :
    (msgCatRequired ∈ validationErrors d ∨ msgCatEnum ∈ validationErrors d) ↔
      categoryOk d = false := by
  constructor
  · intro h
    by_contra hok
    rw [Bool.not_eq_false] at hok
    have hnil : categoryErrors d = [] := (categoryErrors_eq_nil d).mpr hok
    rcases h with h | h <;>
    · simp only [validationErrors, List.mem_append, hnil, List.not_mem_nil,
        false_or, or_false, or_assoc] at h
      rcases h with h | h | h | h | h | h <;>
        first
          | exact absurd (mem_nameErrors h) (by decide)
          | exact absurd (mem_priceErrors h) (by decide)
          | exact absurd (mem_durationErrors h) (by decide)
          | exact absurd (mem_statusErrors h) (by decide)
          | exact absurd (mem_descriptionErrors h) (by decide)
          | exact absurd (mem_clientsErrors h) (by decide)
  · intro hfalse
    have hne : categoryErrors d ≠ [] := by
      rw [ne_eq, categoryErrors_eq_nil, hfalse]
      simp
    rcases categoryErrors_cases d with h | h | h
    · exact absurd h hne
    · exact Or.inl (by simp [validationErrors, List.mem_append, h])
    · exact Or.inr (by simp [validationErrors, List.mem_append, h])

lemma priceMsg_mem_validationErrors (d : RawDoc) :
    (msgPriceRequired ∈ validationErrors d ∨ msgPriceMin ∈ validationErrors d) ↔
      priceOk d = false := by
  constructor
  · intro h
    by_contra hok
    rw [Bool.not_eq_false] at hok
    have hnil : priceErrors d = [] := (priceErrors_eq_nil d).mpr hok
    rcases h with h | h <;>
    · simp only [validationErrors, List.mem_append, hnil, List.not_mem_nil,
        false_or, or_false, or_assoc] at h
      rcases h with h | h | h | h | h | h <;>
        first
          | exact absurd (mem_nameErrors h) (by decide)
          | exact absurd (mem_categoryErrors h) (by decide)
          | exact absurd (mem_durationErrors h) (by decide)
          | exact absurd (mem_statusErrors h) (by decide)
          | exact absurd (mem_descriptionErrors h) (by decide)
          | exact absurd (mem_clientsErrors h) (by decide)
  · intro hfalse
    have hne : priceErrors d ≠ [] := by
      rw [ne_eq, priceErrors_eq_nil, hfalse]
      simp
    rcases priceErrors_cases d with h | h | h
    · exact absurd h hne
    · exact Or.inl (by simp [validationErrors, List.mem_append, h])
    · exact Or.inr (by simp [validationErrors, List.mem_append, h])

lemma durationMsg_mem_validationErrors (d : RawDoc) :
    (msgDurRequired ∈ validationErrors d ∨ msgDurMax ∈ validationErrors d) ↔
      durationOk d = false := by
  constructor
  · intro h
    by_contra hok
    rw [Bool.not_eq_false] at hok
    have hnil : durationErrors d = [] := (durationErrors_eq_nil d).mpr hok
    rcases h with h | h <;>
    · simp only [validationErrors, List.mem_append, hnil, List.not_mem_nil,
        false_or, or_false, or_assoc] at h
      rcases h with h | h | h | h | h | h <;>
        first
          | exact absurd (mem_nameErrors h) (by decide)
          | exact absurd (mem_categoryErrors h) (by decide)
          | exact absurd (mem_priceErrors h) (by decide)
          | exact absurd (mem_statusErrors h) (by decide)
          | exact absurd (mem_descriptionErrors h) (by decide)
          | exact absurd (mem_clientsErrors h) (by decide)
  · intro hfalse
    have hne : durationErrors d ≠ [] := by
      rw [ne_eq, durationErrors_eq_nil, hfalse]
      simp
    rcases durationErrors_cases d with h | h | h
    · exact absurd h hne
    · exact Or.inl (by simp [validationErrors, List.mem_append, h])
    · exact Or.inr (by simp [validationErrors, List.mem_append, h])

lemma descriptionMsg_mem_validationErrors (d : RawDoc) :
    (msgDescRequired ∈ validationErrors d ∨ msgDescMax ∈ validationErrors d) ↔
      descriptionOk d = false := by
  constructor
  · intro h
    by_contra hok
    rw [Bool.not_eq_false] at hok
    have hnil : descriptionErrors d = [] := (descriptionErrors_eq_nil d).mpr hok
    rcases h with h | h <;>
    · simp only [validationErrors, List.mem_append, hnil, List.not_mem_nil,
        false_or, or_false, or_assoc] at h
      rcases h with h | h | h | h | h | h <;>
        first
          | exact absurd (mem_nameErrors h) (by decide)
          | exact absurd (mem_categoryErrors h) (by decide)
          | exact absurd (mem_priceErrors h) (by decide)
          | exact absurd (mem_durationErrors h) (by decide)
          | exact absurd (mem_statusErrors h) (by decide)
          | exact absurd (mem_clientsErrors h) (by decide)
  · intro hfalse
    have hne : descriptionErrors d ≠ [] := by
      rw [ne_eq, descriptionErrors_eq_nil, hfalse]
      simp
    rcases descriptionErrors_cases d with h | h | h
    · exact absurd h hne
    · exact Or.inl (by simp [validationErrors, List.mem_append, h])
    · exact Or.inr (by simp [validationErrors, List.mem_append, h])

lemma mem_insertByCreatedDesc {r x : Service} {l : List Service} :
    x ∈ insertByCreatedDesc r l ↔ x = r ∨ x ∈ l := by
  induction l with
  | nil => simp [insertByCreatedDesc]
  | cons a t ih =>
    simp only [insertByCreatedDesc]
    split_ifs with h
    · simp [List.mem_cons]
    · simp only [List.mem_cons, ih]
      tauto

lemma pairwise_insertByCreatedDesc {r : Service} {l : List Service}
    (h : l.Pairwise (fun a b => b.createdAt ≤ a.createdAt)) :
    (insertByCreatedDesc r l).Pairwise (fun a b => b.createdAt ≤ a.createdAt) := by
  induction l with
  | nil => simp [insertByCreatedDesc]
  | cons a t ih =>
    rw [List.pairwise_cons] at h
    obtain ⟨ha, ht⟩ := h
    simp only [insertByCreatedDesc]
    split_ifs with hle
    · rw [List.pairwise_cons]
      refine ⟨fun y hy => ?_, List.pairwise_cons.mpr ⟨ha, ht⟩⟩
      rcases List.mem_cons.mp hy with rfl | hy
      · exact hle
      · exact le_trans (ha y hy) hle
    · rw [List.pairwise_cons]
      refine ⟨fun y hy => ?_, ih ht⟩
      rcases mem_insertByCreatedDesc.mp hy with rfl | hy
      · exact le_of_not_le hle
      · exact ha y hy

lemma pairwise_sortByCreatedDesc (l : List Service) :
    (sortByCreatedDesc l).Pairwise (fun a b => b.createdAt ≤ a.createdAt) := by
  induction l with
  | nil => simp [sortByCreatedDesc]
  | cons a t ih =>
    rw [sortByCreatedDesc, List.foldr_cons]
    exact pairwise_insertByCreatedDesc ih

lemma mem_sortByCreatedDesc {x : Service} {l : List Service} :
    x ∈ sortByCreatedDesc l ↔ x ∈ l := by
  induction l with
  | nil => simp [sortByCreatedDesc]
  | cons a t ih =>
    rw [sortByCreatedDesc, List.foldr_cons]
    rw [mem_insertByCreatedDesc]
    simp only [List.mem_cons]
    rw [show (t.foldr insertByCreatedDesc [] : List Service) = sortByCreatedDesc t from rfl, ih]

lemma length_eq_sum_countStatus (db : List Service)
    (h : ∀ r ∈ db, r.status ∈ validStatuses) :
    db.length = countStatus db "Activo" + countStatus db "Nuevo" +
      countStatus db "Pausado" + countStatus db "Inactivo" := by
  induction db with
  | nil => simp [countStatus]
  | cons r t ih =>
    have hr := h r (List.mem_cons_self r t)
    have iht := ih fun x hx => h x (List.mem_cons_of_mem r hx)
    rcases show r.status = "Activo" ∨ r.status = "Nuevo" ∨ r.status = "Pausado" ∨
        r.status = "Inactivo" by simpa [validStatuses] using hr with hs | hs | hs | hs <;>
      simp [countStatus, List.filter_cons, hs] at iht ⊢ <;> omega

lemma abs_sub_jsRound (q : ℚ) : |q - jsRound q| ≤ 1/2 := by
  rw [jsRound, abs_le]
  have h1 : ((⌊q + 1/2⌋ : ℤ) : ℚ) ≤ q + 1/2 := Int.floor_le _
  have h2 : q + 1/2 < (⌊q + 1/2⌋ : ℤ) + 1 := Int.lt_floor_add_one _
  constructor <;> push_cast at * <;> linarith

/-- C5: for every identifier string, `getServiceById` with a syntactically
malformed identifier fails with the invalid-identifier outcome (HTTP 400,
id echoed), while a well-formed identifier matching no record fails with
the not-found outcome (HTTP 404, id echoed); the two failure kinds are
distinct outcomes. -/
theorem getById_distinguishes_invalid_and_missing (db : List Service) (id : String) :
    (isWellFormedId id = false →
      getServiceById db id = .invalidId id ∧
        (getServiceById db id).statusCode = 400) ∧
    (isWellFormedId id = true → (∀ r ∈ db, r.id ≠ id) →
      getServiceById db id = .notFound id ∧
        (getServiceById db id).statusCode = 404) ∧
    (∀ a b : String, (GetByIdResult.invalidId a) ≠ (GetByIdResult.notFound b)) := by
  refine ⟨fun hbad => ?_, fun hok hnone => ?_, by simp⟩
  · simp [getServiceById, hbad, GetByIdResult.statusCode]
  · have hfind : db.find? (fun r => r.id = id) = none := by
      rw [List.find?_eq_none]
      intro x hx
      simpa using hnone x hx
    simp [getServiceById, hok, hfind, GetByIdResult.statusCode]

/-- Witness for C5 at the concrete malformed identifier of the spec
scenario and a concrete well-formed absent identifier. -/
theorem getById_distinguishes_invalid_and_missing_witness :
    (isWellFormedId "not-an-id" = false ∧
      getServiceById [] "not-an-id" = .invalidId "not-an-id" ∧
      (getServiceById [] "not-an-id").statusCode = 400) ∧
    (isWellFormedId "507f1f77bcf86cd799439011" = true ∧
      getServiceById [] "507f1f77bcf86cd799439011" =
        .notFound "507f1f77bcf86cd799439011" ∧
      (getServiceById [] "507f1f77bcf86cd799439011").statusCode = 404) := by
  refine ⟨⟨by decide, ?_⟩, ⟨by decide, ?_⟩⟩
  · exact (getById_distinguishes_invalid_and_missing [] "not-an-id").1 (by decide)
  · exact (getById_distinguishes_invalid_and_missing []
      "507f1f77bcf86cd799439011").2.1 (by decide) (by simp)

/-- C6: for every category outside the fixed enumeration,
`getServicesByCategory` fails with the invalid-category outcome (HTTP 400,
echoing the valid set and the received value) and its result does not
depend on the store at all; for every category in the enumeration it
returns the records of that category together with their count. -/
theorem listByCategory_validation_and_results (db : List Service) (c : String) :
    (c ∉ validCategories →
      getServicesByCategory db c =
        .invalidCategory "Categoría inválida" validCategories c ∧
      (getServicesByCategory db c).statusCode = 400 ∧
      (∀ db' : List Service, getServicesByCategory db' c = getServicesByCategory db c)) ∧
    (c ∈ validCategories →
      ∃ l : List Service, getServicesByCategory db c = .ok c l.length l ∧
        (∀ r : Service, r ∈ l ↔ r ∈ db ∧ r.category = c)) := by
  constructor
  · intro hbad
    refine ⟨?_, ?_, fun db' => ?_⟩ <;>
      simp [getServicesByCategory, hbad, CategoryResult.statusCode]
  · intro hc
    refine ⟨sortByCreatedDesc (db.filter (fun r => r.category = c)), ?_, fun r => ?_⟩
    · simp [getServicesByCategory, hc]
    · rw [mem_sortByCreatedDesc, List.mem_filter]
      simp

/-- Witness for C6 at the invalid category "Marketing" and the valid
category "Digital" over the empty store. -/
theorem listByCategory_validation_and_results_witness :
    ("Marketing" ∉ validCategories ∧
      getServicesByCategory [] "Marketing" =
        .invalidCategory "Categoría inválida" validCategories "Marketing") ∧
    ("Digital" ∈ validCategories ∧
      ∃ l : List Service, getServicesByCategory [] "Digital" = .ok "Digital" l.length l ∧
        (∀ r : Service, r ∈ l ↔ r ∈ ([] : List Service) ∧ r.category = "Digital")) := by
  refine ⟨⟨by decide, ?_⟩, ⟨by decide, ?_⟩⟩
  · exact ((listByCategory_validation_and_results [] "Marketing").1 (by decide)).1
  · exact (listByCategory_validation_and_results [] "Digital").2 (by decide)

/-- C7: every record list returned by the list endpoint, and every record
list returned by a successful category query, is ordered by creation time,
most recent first. -/
theorem list_results_sorted_desc (db : List Service) :
    (getAllServices db).Pairwise (fun a b => b.createdAt ≤ a.createdAt) ∧
    (∀ (c c' : String) (cnt : Nat) (l : List Service),
      getServicesByCategory db c = .ok c' cnt l →
      l.Pairwise (fun a b => b.createdAt ≤ a.createdAt)) := by
  refine ⟨pairwise_sortByCreatedDesc db, fun c c' cnt l h => ?_⟩
  by_cases hc : c ∈ validCategories
  · simp only [getServicesByCategory, if_pos hc, CategoryResult.ok.injEq] at h
    obtain ⟨-, -, hl⟩ := h
    rw [← hl]
    exact pairwise_sortByCreatedDesc _
  · simp [getServicesByCategory, hc] at h

/-- Witness for C7: the sortedness of a successful category query is
exercised at a concrete store and category. -/
theorem list_results_sorted_desc_witness :
    getServicesByCategory [] "Digital" = .ok "Digital" 0 [] ∧
    ([] : List Service).Pairwise
      (fun a b : Service => b.createdAt ≤ a.createdAt) := by
  refine ⟨by rfl, ?_⟩
  exact (list_results_sorted_desc []).2 "Digital" "Digital" 0 [] (by rfl)

/-- C8: a valid create payload that omits `status` produces a record with
status "Nuevo", and one that omits `clients` produces a record with
clients 0. -/
theorem create_defaults_status_clients (b : RequestBody) (newId : String) (now : ℤ)
    (r : Service) (h : createService b newId now = .ok r) :
    (b.status = none → r.status = "Nuevo") ∧ (b.clients = none → r.clients = 0) := by
  simp only [createService] at h
  split_ifs at h with hv
  rw [Except.ok.injEq] at h
  constructor
  · intro hst
    rw [← h]
    simp [finalizeDoc, buildRawDoc, hst, jsOrString]
  · intro hcl
    rw [← h]
    simp [finalizeDoc, buildRawDoc, hcl]

/-- The create scenario payload of the spec: name "seo audit", category
"Digital", price 100, duration "1 week", description "desc", no status, no
clients, no extra keys. -/
def scenarioBody : RequestBody :=
  ⟨some "seo audit", some "Digital", some 100, some "1 week", none,
    some "desc", none, none, none, none, []⟩

/-- The record the backend stores for the scenario payload (identifier
"a1", creation instant 0). -/
def scenarioRecord : Service :=
  ⟨"a1", "Seo audit", "Digital", 100, "1 week", "Nuevo", "desc", 0, 0, 0⟩

/-- Witness for C8 at the concrete scenario payload of the spec, which
omits both `status` and `clients`. -/
theorem create_defaults_status_clients_witness :
    createService scenarioBody "a1" 0 = .ok scenarioRecord ∧
    scenarioBody.status = none ∧ scenarioRecord.status = "Nuevo" ∧
    scenarioBody.clients = none ∧ scenarioRecord.clients = 0 := by
  refine ⟨rfl, rfl, ?_, rfl, ?_⟩
  · exact (create_defaults_status_clients scenarioBody "a1" 0 scenarioRecord rfl).1 rfl
  · exact (create_defaults_status_clients scenarioBody "a1" 0 scenarioRecord rfl).2 rfl

/-- C9: updating a storable record with an empty partial payload leaves
every field unchanged except `updatedAt`. -/
theorem update_empty_payload_frame (s : Service) (now : ℤ) (h : Storable s) :
    updateService s emptyBody now = .ok { s with updatedAt := now } := by
  obtain ⟨hv, htn, htd, hcap⟩ := h
  have happ : applyUpdateFields s emptyBody = s := by
    simp [applyUpdateFields, emptyBody, jsOrString, htn, htd]
  simp only [updateService, happ, hv, if_pos]
  rw [hcap]

/-- Witness for C9 at a concrete storable record. -/
theorem update_empty_payload_frame_witness :
    Storable ⟨"a1", "Seo audit", "Digital", 100, "1 week", "Activo", "desc", 5, 3, 4⟩ ∧
    updateService ⟨"a1", "Seo audit", "Digital", 100, "1 week", "Activo", "desc", 5, 3, 4⟩
        emptyBody 9 =
      .ok ⟨"a1", "Seo audit", "Digital", 100, "1 week", "Activo", "desc", 5, 3, 9⟩ := by
  refine ⟨by decide, ?_⟩
  exact update_empty_payload_frame _ 9 (by decide)

/-- C10: `createService` reads exactly the seven business keys of the
request body: two bodies that agree on them produce identical outcomes, so
attacker-supplied extra keys (an `id`, `createdAt`, `updatedAt`, or any
other key) have no influence on the stored record. -/
theorem create_reads_only_seven_fields (b1 b2 : RequestBody) (newId : String)
    (now : ℤ) (h1 : b1.name = b2.name) (h2 : b1.category = b2.category)
    (h3 : b1.price = b2.price) (h4 : b1.duration = b2.duration)
    (h5 : b1.status = b2.status) (h6 : b1.description = b2.description)
    (h7 : b1.clients = b2.clients) :
    createService b1 newId now = createService b2 newId now := by
  have hd : buildRawDoc b1 = buildRawDoc b2 := by
    simp [buildRawDoc, h1, h2, h3, h4, h5, h6, h7]
  simp [createService, hd]

/-- Witness for C10: two payloads agreeing on the seven business keys, one
of them carrying attacker-supplied `id`, `createdAt`, `updatedAt` and an
arbitrary extra key, produce identical create outcomes. -/
theorem create_reads_only_seven_fields_witness :
    createService
        ⟨some "seo audit", some "Digital", some 100, some "1 week", none,
          some "desc", none, none, none, none, []⟩ "a1" 0 =
      createService
        ⟨some "seo audit", some "Digital", some 100, some "1 week", none,
          some "desc", none, some "evil-id", some 999, some 999,
          [("isAdmin", "true")]⟩ "a1" 0 := by
  exact create_reads_only_seven_fields _ _ "a1" 0 rfl rfl rfl rfl rfl rfl rfl

/-- A concrete stored record used to exercise the update overlay: its
clients count is 5. -/
def storedFive : Service :=
  ⟨"507f1f77bcf86cd799439011", "Seo audit", "Digital", 100, "1 week",
    "Activo", "desc", 5, 10, 10⟩

/-- A partial update payload whose only key is `clients`, explicitly set to
the falsy value 0. -/
def clientsZeroBody : RequestBody :=
  ⟨none, none, none, none, none, none, some 0, none, none, none, []⟩

/-- Counterexample to C1: a payload that explicitly sets `clients` to the
falsy value 0 does NOT retain the stored value 5 — the update persists
clients = 0, because the source tests `req.body.clients !== undefined`
rather than falling back with `||`.  The falsy-is-not-present behaviour
therefore does not hold uniformly for all seven business fields. -/
theorem update_falsy_clients_applied_cex :
    storedFive.clients = 5 ∧
    updateService storedFive clientsZeroBody 11 =
      .ok { storedFive with clients := 0, updatedAt := 11 } ∧
    (0 : ℤ) ≠ 5 :=
  ⟨rfl, rfl, by decide⟩

/-- The corrected overlay semantics of `updateService`: the five string
fields treat falsy (empty) and absent values as not present (the stored
value is retained), while `price` and `clients` are overlaid whenever the
key is present, an explicit falsy 0 included, and retained only when the
key is absent. -/
def overlayPresenceSemantics (s : Service) : Prop :=
  (∀ b : RequestBody, b.name = some "" → (applyUpdateFields s b).name = s.name) ∧
  (∀ b : RequestBody, b.category = some "" →
    (applyUpdateFields s b).category = s.category) ∧
  (∀ b : RequestBody, b.duration = some "" →
    (applyUpdateFields s b).duration = s.duration) ∧
  (∀ b : RequestBody, b.status = some "" → (applyUpdateFields s b).status = s.status) ∧
  (∀ b : RequestBody, b.description = some "" →
    (applyUpdateFields s b).description = s.description) ∧
  (∀ b : RequestBody, b.name = none → (applyUpdateFields s b).name = s.name) ∧
  (∀ b : RequestBody, b.category = none →
    (applyUpdateFields s b).category = s.category) ∧
  (∀ b : RequestBody, b.duration = none →
    (applyUpdateFields s b).duration = s.duration) ∧
  (∀ b : RequestBody, b.status = none → (applyUpdateFields s b).status = s.status) ∧
  (∀ b : RequestBody, b.description = none →
    (applyUpdateFields s b).description = s.description) ∧
  (∀ (b : RequestBody) (p : ℚ), b.price = some p → (applyUpdateFields s b).price = p) ∧
  (∀ (b : RequestBody) (c : ℤ), b.clients = some c →
    (applyUpdateFields s b).clients = c) ∧
  (∀ b : RequestBody, b.price = none → (applyUpdateFields s b).price = s.price) ∧
  (∀ b : RequestBody, b.clients = none → (applyUpdateFields s b).clients = s.clients)

/-- C1 as amended: for every stored record whose `name` and `description`
are trim-fixed (true of every record persisted through the schema
setters), the update overlay retains a field on a falsy/absent value only
for the five string fields; `price` and `clients` follow
presence-by-definedness, so explicit falsy values are applied. -/
theorem update_overlay_presence_semantics (s : Service)
    (htn : jsTrim s.name = s.name) (htd : jsTrim s.description = s.description) :
    overlayPresenceSemantics s := by
  unfold overlayPresenceSemantics
  refine ⟨?_, ?_, ?_, ?_, ?_, ?_, ?_, ?_, ?_, ?_, ?_, ?_, ?_, ?_⟩ <;>
    intro b <;> intros <;> simp_all [applyUpdateFields, jsOrString]

/-- Witness for C1's amended overlay semantics at a concrete trim-fixed
record. -/
theorem update_overlay_presence_semantics_witness :
    (jsTrim storedFive.name = storedFive.name ∧
      jsTrim storedFive.description = storedFive.description) ∧
    overlayPresenceSemantics storedFive :=
  ⟨⟨by decide, by decide⟩,
    update_overlay_presence_semantics storedFive (by decide) (by decide)⟩

/-- Counterexample to C3: the repository's second write path — the inline
Vercel app of part_000, whose schema registers no pre-save hook — stores
the scenario payload's name exactly as submitted, "seo audit", not
"Seo audit".  The claim's "every write" is therefore false on the code. -/
theorem vercel_create_no_capitalization_cex :
    createServiceVercel scenarioBody "a1" 0 =
      .ok ⟨"a1", "seo audit", "Digital", 100, "1 week", "Nuevo", "desc", 0, 0, 0⟩ ∧
    "seo audit" ≠ "Seo audit" :=
  ⟨rfl, by decide⟩

/-- C3 as amended: writes through the backend model (`Service.js`, whose
pre-save hook runs on both create and update) store the name with its
first character upper-cased and the remaining characters unchanged — in
particular the scenario payload stores "Seo audit" — while writes through
the inline Vercel app's schema, which has no pre-save hook, store the
trimmed name unchanged. -/
theorem name_capitalization_backend_only :
    (∀ (b : RequestBody) (newId : String) (now : ℤ) (r : Service) (n : String),
      createService b newId now = .ok r → b.name = some n →
      r.name = capFirstJs (jsTrim n)) ∧
    (∀ (s : Service) (b : RequestBody) (now : ℤ) (r : Service),
      updateService s b now = .ok r →
      r.name = capFirstJs (applyUpdateFields s b).name) ∧
    createService scenarioBody "a1" 0 = .ok scenarioRecord ∧
    scenarioRecord.name = "Seo audit" ∧
    (∀ (b : RequestBody) (newId : String) (now : ℤ) (r : Service) (n : String),
      createServiceVercel b newId now = .ok r → b.name = some n →
      r.name = jsTrim n) := by
  refine ⟨?_, ?_, rfl, rfl, ?_⟩
  · intro b newId now r n h hn
    simp only [createService] at h
    split_ifs at h with hv
    rw [Except.ok.injEq] at h
    rw [← h]
    simp [finalizeDoc, buildRawDoc, hn]
  · intro s b now r h
    simp only [updateService] at h
    split_ifs at h with hv
    rw [Except.ok.injEq] at h
    rw [← h]
  · intro b newId now r n h hn
    simp only [createServiceVercel] at h
    split_ifs at h with hv
    rw [Except.ok.injEq] at h
    rw [← h]
    simp [finalizeDoc, buildRawDoc, hn]

/-- Witness for C3's amended statement: the backend-path conjunct applied
at the concrete scenario payload. -/
theorem name_capitalization_backend_only_witness :
    createService scenarioBody "a1" 0 = .ok scenarioRecord ∧
    scenarioRecord.name = capFirstJs (jsTrim "seo audit") ∧
    capFirstJs (jsTrim "seo audit") = "Seo audit" := by
  refine ⟨rfl, ?_, by decide⟩
  exact name_capitalization_backend_only.1 scenarioBody "a1" 0 scenarioRecord
    "seo audit" rfl rfl

lemma statusErrors_cases (d : RawDoc) :
    statusErrors d = [] ∨ statusErrors d = [msgStatusRequired] ∨
      statusErrors d = [msgStatusEnum] := by
  cases hx : d.status with
  | none => simp [statusErrors, hx]
  | some st =>
    simp only [statusErrors, hx]
    split_ifs <;> simp

lemma clientsErrors_cases (d : RawDoc) :
    clientsErrors d = [] ∨ clientsErrors d = [msgClientsMin] := by
  cases hx : d.clients with
  | none => simp [clientsErrors, hx]
  | some c =>
    simp only [clientsErrors, hx]
    split_ifs <;> simp

lemma statusMsg_mem_validationErrors (d : RawDoc) :
    (msgStatusRequired ∈ validationErrors d ∨ msgStatusEnum ∈ validationErrors d) ↔
      statusOk d = false := by
  constructor
  · intro h
    by_contra hok
    rw [Bool.not_eq_false] at hok
    have hnil : statusErrors d = [] := (statusErrors_eq_nil d).mpr hok
    rcases h with h | h <;>
    · simp only [validationErrors, List.mem_append, hnil, List.not_mem_nil,
        false_or, or_false, or_assoc] at h
      rcases h with h | h | h | h | h | h <;>
        first
          | exact absurd (mem_nameErrors h) (by decide)
          | exact absurd (mem_categoryErrors h) (by decide)
          | exact absurd (mem_priceErrors h) (by decide)
          | exact absurd (mem_durationErrors h) (by decide)
          | exact absurd (mem_descriptionErrors h) (by decide)
          | exact absurd (mem_clientsErrors h) (by decide)
  · intro hfalse
    have hne : statusErrors d ≠ [] := by
      rw [ne_eq, statusErrors_eq_nil, hfalse]
      simp
    rcases statusErrors_cases d with h | h | h
    · exact absurd h hne
    · exact Or.inl (by simp [validationErrors, List.mem_append, h])
    · exact Or.inr (by simp [validationErrors, List.mem_append, h])

lemma clientsMsg_mem_validationErrors (d : RawDoc) :
    msgClientsMin ∈ validationErrors d ↔ clientsOk d = false := by
  constructor
  · intro h
    by_contra hok
    rw [Bool.not_eq_false] at hok
    have hnil : clientsErrors d = [] := (clientsErrors_eq_nil d).mpr hok
    simp only [validationErrors, List.mem_append, hnil, List.not_mem_nil,
      false_or, or_false, or_assoc] at h
    rcases h with h | h | h | h | h | h <;>
      first
        | exact absurd (mem_nameErrors h) (by decide)
        | exact absurd (mem_categoryErrors h) (by decide)
        | exact absurd (mem_priceErrors h) (by decide)
        | exact absurd (mem_durationErrors h) (by decide)
        | exact absurd (mem_statusErrors h) (by decide)
        | exact absurd (mem_descriptionErrors h) (by decide)
  · intro hfalse
    have hne : clientsErrors d ≠ [] := by
      rw [ne_eq, clientsErrors_eq_nil, hfalse]
      simp
    rcases clientsErrors_cases d with h | h
    · exact absurd h hne
    · simp [validationErrors, List.mem_append, h]

/-- The itemized validation report of a failed create: for each schema
path, one of its messages appears in the returned error list exactly when
that path is missing or invalid — every violation is reported and no valid
field is reported. -/
def validationReport (b : RequestBody) (errs : List String) : Prop :=
  ((msgNameRequired ∈ errs ∨ msgNameMax ∈ errs) ↔ nameOk (buildRawDoc b) = false) ∧
  ((msgCatRequired ∈ errs ∨ msgCatEnum ∈ errs) ↔ categoryOk (buildRawDoc b) = false) ∧
  ((msgPriceRequired ∈ errs ∨ msgPriceMin ∈ errs) ↔ priceOk (buildRawDoc b) = false) ∧
  ((msgDurRequired ∈ errs ∨ msgDurMax ∈ errs) ↔ durationOk (buildRawDoc b) = false) ∧
  ((msgDescRequired ∈ errs ∨ msgDescMax ∈ errs) ↔
    descriptionOk (buildRawDoc b) = false) ∧
  ((msgStatusRequired ∈ errs ∨ msgStatusEnum ∈ errs) ↔
    statusOk (buildRawDoc b) = false) ∧
  (msgClientsMin ∈ errs ↔ clientsOk (buildRawDoc b) = false)

/-- C4: every create payload missing or violating one of the five required
fields fails with a validation error list that reports all violating paths
at once — each path's message is present exactly when that path is
invalid, independently of the other paths, with no message for any valid
path. -/
theorem create_validation_reports_all_violations (b : RequestBody) (newId : String)
    (now : ℤ)
    (h : ¬ (nameOk (buildRawDoc b) = true ∧ categoryOk (buildRawDoc b) = true ∧
      priceOk (buildRawDoc b) = true ∧ durationOk (buildRawDoc b) = true ∧
      descriptionOk (buildRawDoc b) = true)) :
    ∃ errs : List String, createService b newId now = .error errs ∧
      validationReport b errs := by
  have hne : validationErrors (buildRawDoc b) ≠ [] := by
    rw [ne_eq, validationErrors_eq_nil]
    tauto
  refine ⟨validationErrors (buildRawDoc b), ?_,
    nameMsg_mem_validationErrors _, categoryMsg_mem_validationErrors _,
    priceMsg_mem_validationErrors _, durationMsg_mem_validationErrors _,
    descriptionMsg_mem_validationErrors _, statusMsg_mem_validationErrors _,
    clientsMsg_mem_validationErrors _⟩
  simp [createService, hne]

/-- A create payload missing `name` and `price` while `category`,
`duration` and `description` are valid. -/
def badBody : RequestBody :=
  ⟨none, some "Digital", none, some "1 week", none, some "desc", none,
    none, none, none, []⟩

/-- Witness for C4 at a concrete payload missing `name` and `price`. -/
theorem create_validation_reports_all_violations_witness :
    ¬ (nameOk (buildRawDoc badBody) = true ∧ categoryOk (buildRawDoc badBody) = true ∧
      priceOk (buildRawDoc badBody) = true ∧ durationOk (buildRawDoc badBody) = true ∧
      descriptionOk (buildRawDoc badBody) = true) ∧
    (∃ errs : List String, createService badBody "a1" 0 = .error errs ∧
      validationReport badBody errs) :=
  ⟨by decide, create_validation_reports_all_violations badBody "a1" 0 (by decide)⟩

lemma jsRound_zero : jsRound 0 = 0 := by
  rw [jsRound]
  rw [show (0 : ℚ) + 1/2 = 1/2 by norm_num]
  rw [Int.floor_eq_zero_iff]
  norm_num [Set.mem_Ico]

lemma aggPricing_cons (r : Service) (t : List Service) :
    aggPricing (r :: t) =
      some ((((r :: t).map (fun x => x.price)).sum / (((r :: t).length : ℕ) : ℚ)),
        (t.map (fun x => x.price)).foldl min r.price,
        (t.map (fun x => x.price)).foldl max r.price) := by
  simp [aggPricing, List.length_map]

/-- The stats snapshot invariant of the spec: the total record count equals
the sum of the four per-status counts, the clients total is the sum of
`clients` over all records, the three pricing figures are exactly 0 on an
empty record set, and on a non-empty record set the reported average price
is an integer within one half of the true mean price (rounding to the
nearest integer). -/
def statsInvariant (db : List Service) (now : ℤ) : Prop :=
  (getServiceStats db now).overview.totalServices =
      (getServiceStats db now).overview.activeServices +
      (getServiceStats db now).overview.newServices +
      (getServiceStats db now).overview.pausedServices +
      (getServiceStats db now).overview.inactiveServices ∧
  (getServiceStats db now).totalClients = (db.map (fun r => r.clients)).sum ∧
  (db = [] → (getServiceStats db now).pricing.averagePrice = 0 ∧
    (getServiceStats db now).pricing.minPrice = 0 ∧
    (getServiceStats db now).pricing.maxPrice = 0) ∧
  (db ≠ [] →
    |(db.map (fun r => r.price)).sum / ((db.length : ℕ) : ℚ) -
      ((getServiceStats db now).pricing.averagePrice : ℚ)| ≤ 1/2)

/-- C2: for every record set whose statuses lie in the schema enumeration
(which the schema enforces on every save), the stats snapshot satisfies
the invariant: total = sum of the four status counts, clients total = sum
of clients, all three pricing figures exactly 0 when no records exist
(never NaN or undefined — the aggregate's missing row is replaced by 0),
and the average price rounded to the nearest integer. -/
theorem stats_snapshot_invariant (db : List Service) (now : ℤ)
    (h : ∀ r ∈ db, r.status ∈ validStatuses) : statsInvariant db now := by
  unfold statsInvariant
  refine ⟨?_, ?_, ?_, ?_⟩
  · simpa [getServiceStats] using length_eq_sum_countStatus db h
  · cases db with
    | nil => simp [getServiceStats, aggTotalClients]
    | cons r t =>
      simp only [getServiceStats, aggTotalClients]
      split_ifs with h0
      · exact h0.symm
      · rfl
  · rintro rfl
    refine ⟨?_, rfl, rfl⟩
    simp [getServiceStats, aggPricing, jsRound_zero]
  · intro hne
    obtain ⟨r, t, rfl⟩ := List.exists_cons_of_ne_nil hne
    have hagg := aggPricing_cons r t
    simp only [getServiceStats, hagg]
    set avg := (((r :: t).map (fun x => x.price)).sum / (((r :: t).length : ℕ) : ℚ))
      with havg
    by_cases h0 : avg = 0
    · rw [if_pos h0, h0, jsRound_zero]
      norm_num
    · rw [if_neg h0]
      exact abs_sub_jsRound avg

/-- A concrete two-record store used to exercise the stats snapshot. -/
def statsWitnessDb : List Service :=
  [⟨"a1", "Seo audit", "Digital", 100, "1 week", "Activo", "desc", 3, 2, 2⟩,
   ⟨"a2", "Branding", "Diseño", 200, "2 weeks", "Nuevo", "desc2", 4, 1, 1⟩]

/-- Witness for C2 at a concrete two-record store with valid statuses. -/
theorem stats_snapshot_invariant_witness :
    (∀ r ∈ statsWitnessDb, r.status ∈ validStatuses) ∧
    statsInvariant statsWitnessDb 0 :=
  ⟨by decide, stats_snapshot_invariant statsWitnessDb 0 (by decide)⟩

end Vyrtium
